import Mathlib

/-!
Verification of the chip-eight CHIP-8 virtual machine core.

The definitions below are a shallow embedding of the Rust sources:
`src/memory.rs` (bounds-checked byte store), `src/core/instructions.rs`
(opcode decoder), `src/timer.rs` (60 Hz down-counter worker body) and
`src/system.rs` (the fetch/decode/execute loop of `ChipEight::play`).
Machine integers are modelled as `Nat` with an explicit `% 2^w` wherever
the Rust code wraps; fallible operations return `Except`.
-/

/-! ## Memory model (src/memory.rs) -/

/-- `MemoryError` from src/memory.rs: `AddrOutOfBounds(usize)` and
`RangeOutOfBounds(usize, usize)` (address, length). -/
inductive MemoryError where
  | AddrOutOfBounds : Nat → MemoryError
  | RangeOutOfBounds : Nat → Nat → MemoryError
deriving DecidableEq

/-- `Memory` from src/memory.rs: a flat byte buffer (`Vec<u8>`). -/
structure Memory where
  buffer : List Nat
deriving DecidableEq

/-- `Memory::is_in_bounds`: `addr < self.buffer.len()`. -/
def Memory.is_in_bounds (m : Memory) (addr : Nat) : Bool :=
  addr < m.buffer.length

/-- `Memory::read_byte`: bounds check, then `self.buffer[addr]`. -/
def Memory.read_byte (m : Memory) (addr : Nat) : Except MemoryError Nat :=
  if ¬ m.is_in_bounds addr then .error (.AddrOutOfBounds addr)
  else .ok (m.buffer.getD addr 0)

/-- `Memory::read_buf`: zero-length reads succeed with the empty slice;
otherwise the last touched address `addr + (len-1)` is bounds checked and
the slice `buffer[addr..addr+len]` returned. -/
def Memory.read_buf (m : Memory) (addr len : Nat) : Except MemoryError (List Nat) :=
  if len < 1 then .ok []
  else if ¬ m.is_in_bounds (addr + (len - 1)) then .error (.RangeOutOfBounds addr len)
  else .ok ((m.buffer.drop addr).take len)

/-- `Memory::write_byte`: bounds check, then `self.buffer[addr] = data`. -/
def Memory.write_byte (m : Memory) (addr data : Nat) : Except MemoryError Memory :=
  if ¬ m.is_in_bounds addr then .error (.AddrOutOfBounds addr)
  else .ok ⟨m.buffer.set addr data⟩

/-- `Memory::write_buf`: zero-length writes succeed without touching state;
otherwise the last touched address is bounds checked before
`copy_from_slice` splices `data` into the buffer. -/
def Memory.write_buf (m : Memory) (addr : Nat) (data : List Nat) : Except MemoryError Memory :=
  if data.length < 1 then .ok m
  else if ¬ m.is_in_bounds (addr + (data.length - 1)) then
    .error (.RangeOutOfBounds addr data.length)
  else .ok ⟨m.buffer.take addr ++ data ++ m.buffer.drop (addr + data.length)⟩

/-- The memory seen by the caller after `write_buf` returns: on `Ok` the
spliced buffer, on `Err` the untouched `&mut self` (the bounds check in
src/memory.rs precedes any mutation). -/
def memAfterWriteBuf (m : Memory) (addr : Nat) (data : List Nat) : Memory :=
  match Memory.write_buf m addr data with
  | .ok m' => m'
  | .error _ => m

/-- The memory seen by the caller after `write_byte` returns. -/
def memAfterWriteByte (m : Memory) (addr data : Nat) : Memory :=
  match Memory.write_byte m addr data with
  | .ok m' => m'
  | .error _ => m

/-! ## Decoder (src/core/instructions.rs) -/

/-- The 34 tagged instruction variants of `enum Instruction`. -/
inductive Instruction where
  | Clear
  | Return
  | Jump (nnn : Nat)
  | Call (nnn : Nat)
  | IfVxEq (x : Nat) (nn : Nat)
  | IfVxNotEq (x : Nat) (nn : Nat)
  | IfVxEqVy (x y : Nat)
  | SetVx (x : Nat) (nn : Nat)
  | AddToVx (x : Nat) (nn : Nat)
  | SetVxToVy (x y : Nat)
  | SetVxOrVy (x y : Nat)
  | SetVxAndVy (x y : Nat)
  | SetVxXorVy (x y : Nat)
  | AddVyToVx (x y : Nat)
  | SubVyFromVx (x y : Nat)
  | RightShiftVx (x : Nat)
  | SubVxFromVy (x y : Nat)
  | LeftShiftVx (x : Nat)
  | IfVxNotEqVy (x y : Nat)
  | SetI (nnn : Nat)
  | JumpWithOffset (nnn : Nat)
  | SetVxRand (x : Nat) (nn : Nat)
  | Draw (x y : Nat) (n : Nat)
  | IfKeyPressed (x : Nat)
  | IfKeyNotPressed (x : Nat)
  | SetVxToDelay (x : Nat)
  | SetVxToKey (x : Nat)
  | SetDelayToVx (x : Nat)
  | SetSoundToVx (x : Nat)
  | AddVxToI (x : Nat)
  | SetIToCharInVx (x : Nat)
  | StoreVxBCDAtI (x : Nat)
  | VDump (x : Nat)
  | VLoad (x : Nat)
deriving DecidableEq

/-- `struct InvalidOpcodeError(u16)`. -/
structure InvalidOpcodeError where
  opcode : Nat
deriving DecidableEq

/-- `impl TryFrom<u16> for Instruction` from src/core/instructions.rs.
The Rust `match` statements on integer fields are embedded as chains of
equality tests, in source order. -/
def Instruction.tryFrom (opcode : Nat) : Except InvalidOpcodeError Instruction :=
  let op_type := (opcode >>> 12) &&& 0xF
  let x := (opcode >>> 8) &&& 0xF
  let y := (opcode >>> 4) &&& 0xF
  let nnn := opcode &&& 0xFFF
  let nn := opcode &&& 0xFF
  let n := opcode &&& 0xF
  if op_type = 0x0 then
    if nn = 0xE0 then .ok .Clear
    else if nn = 0xEE then .ok .Return
    else .error ⟨opcode⟩
  else if op_type = 0x1 then .ok (.Jump nnn)
  else if op_type = 0x2 then .ok (.Call nnn)
  else if op_type = 0x3 then .ok (.IfVxEq x nn)
  else if op_type = 0x4 then .ok (.IfVxNotEq x nn)
  else if op_type = 0x5 then .ok (.IfVxEqVy x y)
  else if op_type = 0x6 then .ok (.SetVx x nn)
  else if op_type = 0x7 then .ok (.AddToVx x nn)
  else if op_type = 0x8 then
    if n = 0x0 then .ok (.SetVxToVy x y)
    else if n = 0x1 then .ok (.SetVxOrVy x y)
    else if n = 0x2 then .ok (.SetVxAndVy x y)
    else if n = 0x3 then .ok (.SetVxXorVy x y)
    else if n = 0x4 then .ok (.AddVyToVx x y)
    else if n = 0x5 then .ok (.SubVyFromVx x y)
    else if n = 0x6 then .ok (.RightShiftVx x)
    else if n = 0x7 then .ok (.SubVxFromVy x y)
    else if n = 0xE then .ok (.LeftShiftVx x)
    else .error ⟨opcode⟩
  else if op_type = 0x9 then .ok (.IfVxNotEqVy x y)
  else if op_type = 0xA then .ok (.SetI nnn)
  else if op_type = 0xB then .ok (.JumpWithOffset nnn)
  else if op_type = 0xC then .ok (.SetVxRand x nn)
  else if op_type = 0xD then .ok (.Draw x y n)
  else if op_type = 0xE then
    if nn = 0x9E then .ok (.IfKeyPressed x)
    else if nn = 0xA1 then .ok (.IfKeyNotPressed x)
    else .error ⟨opcode⟩
  else if op_type = 0xF then
    if nn = 0x07 then .ok (.SetVxToDelay x)
    else if nn = 0x0A then .ok (.SetVxToKey x)
    else if nn = 0x15 then .ok (.SetDelayToVx x)
    else if nn = 0x18 then .ok (.SetSoundToVx x)
    else if nn = 0x1E then .ok (.AddVxToI x)
    else if nn = 0x29 then .ok (.SetIToCharInVx x)
    else if nn = 0x33 then .ok (.StoreVxBCDAtI x)
    else if nn = 0x55 then .ok (.VDump x)
    else if nn = 0x65 then .ok (.VLoad x)
    else .error ⟨opcode⟩
  else .error ⟨opcode⟩

/-! ## Timer (src/timer.rs) -/

/-- `PeripheralEvent` as sent by the sound timer worker. -/
inductive PeripheralEvent where
  | PlayTone
  | StopTone
deriving DecidableEq

/-- One iteration of the timer worker loop body (src/timer.rs lines 32-47):
load the value; if non-zero, store value−1 and send `PlayTone` (when an
event channel is attached); otherwise send `StopTone`. `event_channel`
is `true` for the sound timer and `false` for the delay timer, which is
constructed with `Timer::new(None)`. Returns the stored value and the
events sent during this tick. -/
def timerTick (event_channel : Bool) (value : Nat) : Nat × List PeripheralEvent :=
  if 0 < value then
    (value - 1, if event_channel then [.PlayTone] else [])
  else
    (value, if event_channel then [.StopTone] else [])

/-- The timer value after `n` worker ticks with no intervening `set`. -/
def timerRun (event_channel : Bool) (value : Nat) : Nat → Nat
  | 0 => value
  | n + 1 => timerRun event_channel (timerTick event_channel value).1 n

/-! ## System state and configuration (src/system.rs, src/config.rs) -/

/-- The six quirk switches of `QuirksConfig` (src/config.rs). -/
structure QuirksConfig where
  skip_reset_vf : Bool
  preserve_index : Bool
  skip_draw_wait : Bool
  wrap_sprites : Bool
  skip_shift_set : Bool
  jump_with_vx : Bool
deriving DecidableEq

/-- The fields of `DisplayConfig` the executor reads. -/
structure DisplayConfig where
  width : Nat
  height : Nat
deriving DecidableEq

/-- The fields of `MemoryConfig` the executor reads. -/
structure MemoryConfig where
  program_start : Nat
  font_start : Nat
deriving DecidableEq

/-- The parts of `Config` (src/config.rs) that the execution loop uses.
`hasInput` records whether an input device is attached
(`self.input.is_some()` in src/system.rs). -/
structure Config where
  quirks : QuirksConfig
  display : DisplayConfig
  memory : MemoryConfig
  hasInput : Bool
deriving DecidableEq

/-- The mutable machine state of `struct ChipEight` (src/system.rs):
stack of return addresses (top first), program counter, the sixteen
V registers, index register, the two timer values, memory and the
frame buffer. -/
structure ChipEight where
  stack : List Nat
  pc : Nat
  v : List Nat
  i : Nat
  delay : Nat
  sound : Nat
  memory : Memory
  frame_buffer : List Bool
deriving DecidableEq

/-- The `panic!`/`expect` exits of the execution loop in `ChipEight::play`. -/
inductive ExecError where
  | FetchFailed (e : MemoryError)
  | ParseFailed (e : InvalidOpcodeError)
  | StackEmpty
  | SpriteFetchFailed (e : MemoryError)
  | BcdWriteFailed (e : MemoryError)
  | VDumpFailed (e : MemoryError)
  | VLoadFailed (e : MemoryError)
  | InvalidKey (key : Nat)
  | NoInputDevice
deriving DecidableEq

/-- `u8::reverse_bits`: reverse the 8 bits of a byte. -/
def reverse_bits8 (b : Nat) : Nat :=
  (List.range 8).foldl (fun acc k => acc ||| (((b >>> k) &&& 1) <<< (7 - k))) 0

/-- Frame buffer plus the collision flag register `v[0xF]`, the two pieces
of state mutated by the pixel loop of the DXYN arm. -/
structure DrawSt where
  fb : List Bool
  vf : Nat
deriving DecidableEq

/-- Body of `if bit != 0 { if let Some(pixel) = frame_buffer.get_mut(idx)
{ if *pixel { v[0xF] = 1 } *pixel = !*pixel } }` (src/system.rs
lines 321-329): out-of-range indices are silently skipped by `get_mut`. -/
def togglePixel (st : DrawSt) (idx : Nat) : DrawSt :=
  if idx < st.fb.length then
    let pixel := st.fb.getD idx false
    ⟨st.fb.set idx (!pixel), if pixel then 1 else st.vf⟩
  else st

/-- The inner column loop `for position in 0..8` of the DXYN arm
(src/system.rs lines 308-330), recursing over the remaining positions.
When `wrap_sprites` is off and the column runs past the right edge the
loop `break`s (the remaining positions are dropped); when it is on the
column wraps modulo the width. -/
def drawRowAux (cfg : DisplayConfig) (wrap : Bool) (x cy byte : Nat) :
    List Nat → DrawSt → DrawSt
  | [], st => st
  | position :: rest, st =>
    let cx := x + position
    if ¬ wrap ∧ cfg.width ≤ cx then st
    else
      let current_x := if wrap then cx % cfg.width else cx
      let bit := (reverse_bits8 byte >>> position) &&& 1
      let st' := if bit ≠ 0 then togglePixel st (cy * cfg.width + current_x) else st
      drawRowAux cfg wrap x cy byte rest st'

/-- The outer layer loop `for (layer, byte) in sprite.iter().enumerate()`
of the DXYN arm (src/system.rs lines 296-331). When `wrap_sprites` is off
and the row runs past the bottom edge the loop `break`s out of the whole
sprite; when it is on the row wraps modulo the height. -/
def drawLayersAux (cfg : DisplayConfig) (wrap : Bool) (x y : Nat) :
    List (Nat × Nat) → DrawSt → DrawSt
  | [], st => st
  | (layer, byte) :: rest, st =>
    let cy := y + layer
    if ¬ wrap ∧ cfg.height ≤ cy then st
    else
      let current_y := if wrap then cy % cfg.height else cy
      drawLayersAux cfg wrap x y rest
        (drawRowAux cfg wrap x current_y byte (List.range 8) st)

/-- The DXYN arm of `execute!` (src/system.rs lines 282-349): set `v[0xF]`
to 0, wrap the start coordinates, fetch the sprite from memory at `I`
(fatal on out-of-range), then run the layer loop. The draw-wait gate at
the end only blocks until the next display tick and touches no machine
state, so it does not appear in the state transformer. -/
def drawArm (cfg : Config) (s : ChipEight) (X Y N : Nat) : Except ExecError ChipEight :=
  let s0 := { s with v := s.v.set 0xF 0 }
  let x := s0.v.getD X 0 % cfg.display.width
  let y := s0.v.getD Y 0 % cfg.display.height
  match s0.memory.read_buf s0.i N with
  | .error e => .error (.SpriteFetchFailed e)
  | .ok sprite =>
    let st := drawLayersAux cfg.display cfg.quirks.wrap_sprites x y
      sprite.enum ⟨s0.frame_buffer, s0.v.getD 0xF 0⟩
    .ok { s0 with frame_buffer := st.fb, v := s0.v.set 0xF st.vf }

/-- The write loop `for index in 0..=$X { memory.write_byte(i + index,
v[index]) }` of the FX55 arm, over an explicit list of indices. -/
def storeRegs (m : Memory) (v : List Nat) (i : Nat) : List Nat → Except MemoryError Memory
  | [] => .ok m
  | idx :: rest =>
    match m.write_byte (i + idx) (v.getD idx 0) with
    | .error e => .error e
    | .ok m' => storeRegs m' v i rest

/-- The read loop `for index in 0..=$X { v[index] = memory.read_byte(i +
index) }` of the FX65 arm, over an explicit list of indices. -/
def loadRegs (m : Memory) (v : List Nat) (i : Nat) : List Nat → Except MemoryError (List Nat)
  | [] => .ok v
  | idx :: rest =>
    match m.read_byte (i + idx) with
    | .error e => .error e
    | .ok b => loadRegs m (v.set idx b) i rest

/-- The FX55 arm (src/system.rs lines 413-424): store `v[0..=X]` at
`memory[i..=i+X]` (fatal on out-of-range), then advance `I` by `X+1`
unless the `preserve_index` quirk is set. -/
def vdumpArm (cfg : Config) (s : ChipEight) (X : Nat) : Except ExecError ChipEight :=
  match storeRegs s.memory s.v s.i (List.range (X + 1)) with
  | .error e => .error (.VDumpFailed e)
  | .ok m' =>
    .ok { s with memory := m',
                 i := if ¬ cfg.quirks.preserve_index then s.i + X + 1 else s.i }

/-- The FX65 arm (src/system.rs lines 425-437): load `v[0..=X]` from
`memory[i..=i+X]` (fatal on out-of-range), then advance `I` by `X+1`
unless the `preserve_index` quirk is set. -/
def vloadArm (cfg : Config) (s : ChipEight) (X : Nat) : Except ExecError ChipEight :=
  match loadRegs s.memory s.v s.i (List.range (X + 1)) with
  | .error e => .error (.VLoadFailed e)
  | .ok v' =>
    .ok { s with v := v',
                 i := if ¬ cfg.quirks.preserve_index then s.i + X + 1 else s.i }

/-- The dispatch of the `execute!` macro in `ChipEight::play`
(src/system.rs lines 163-438), one arm per decoded variant.

Modelled from the spec: the `execute!` macro itself is repository code
that is not under src/ (only its invocation is); per spec §4.1 and the
decoder, its opcode-pattern metavariables are the positional nibble
fields `$X = (opcode>>8)&0xF`, `$Y = (opcode>>4)&0xF`, `$N = opcode&0xF`,
`$NN = opcode&0xFF`, `$NNN = opcode&0xFFF`, and an opcode is dispatched
to the arm of the pattern its decoded variant corresponds to. Every arm
body below is translated from the source text of system.rs.

`keys` is the pressed-key snapshot taken at the top of the cycle, `rnd`
the byte produced by `rand::rng().random::<u8>()`. The waits of DXYN and
FX0A (pure timing, no machine state) are elided; the FX0A release wait
is modelled as completing. V-register arithmetic is 8-bit (`% 256`),
index arithmetic wraps at the machine word (`% 2^64`). -/
def executeInstr (cfg : Config) (keys : List Nat) (rnd : Nat) (opcode : Nat)
    (instr : Instruction) (s : ChipEight) : Except ExecError ChipEight :=
  let X := (opcode >>> 8) &&& 0xF
  let Y := (opcode >>> 4) &&& 0xF
  let N := opcode &&& 0xF
  let NN := opcode &&& 0xFF
  let NNN := opcode &&& 0xFFF
  match instr with
  | .Clear =>
    .ok { s with frame_buffer := List.replicate s.frame_buffer.length false }
  | .Return =>
    match s.stack with
    | [] => .error .StackEmpty
    | a :: rest => .ok { s with pc := a, stack := rest }
  | .Jump _ => .ok { s with pc := NNN }
  | .Call _ => .ok { s with stack := s.pc :: s.stack, pc := NNN }
  | .IfVxEq _ _ =>
    .ok (if s.v.getD X 0 = NN then { s with pc := s.pc + 2 } else s)
  | .IfVxNotEq _ _ =>
    .ok (if s.v.getD X 0 ≠ NN then { s with pc := s.pc + 2 } else s)
  | .IfVxEqVy _ _ =>
    .ok (if s.v.getD X 0 = s.v.getD Y 0 then { s with pc := s.pc + 2 } else s)
  | .SetVx _ _ => .ok { s with v := s.v.set X NN }
  | .AddToVx _ _ =>
    -- source line 199: `self.v[$X] = self.v[$Y].wrapping_add($NN)`
    .ok { s with v := s.v.set X ((s.v.getD Y 0 + NN) % 256) }
  | .SetVxToVy _ _ => .ok { s with v := s.v.set X (s.v.getD Y 0) }
  | .SetVxOrVy _ _ =>
    let v1 := s.v.set X (s.v.getD X 0 ||| s.v.getD Y 0)
    .ok { s with v := if ¬ cfg.quirks.skip_reset_vf then v1.set 0xF 0 else v1 }
  | .SetVxAndVy _ _ =>
    let v1 := s.v.set X (s.v.getD X 0 &&& s.v.getD Y 0)
    .ok { s with v := if ¬ cfg.quirks.skip_reset_vf then v1.set 0xF 0 else v1 }
  | .SetVxXorVy _ _ =>
    let v1 := s.v.set X (s.v.getD X 0 ^^^ s.v.getD Y 0)
    .ok { s with v := if ¬ cfg.quirks.skip_reset_vf then v1.set 0xF 0 else v1 }
  | .AddVyToVx _ _ =>
    let sum := s.v.getD X 0 + s.v.getD Y 0
    let v1 := s.v.set X (sum % 256)
    .ok { s with v := v1.set 0xF (if 255 < sum then 1 else 0) }
  | .SubVyFromVx _ _ =>
    let overflowed := s.v.getD X 0 < s.v.getD Y 0
    let v1 := s.v.set X ((s.v.getD X 0 + 256 - s.v.getD Y 0) % 256)
    .ok { s with v := v1.set 0xF (if overflowed then 0 else 1) }
  | .RightShiftVx _ =>
    let reg := if cfg.quirks.skip_shift_set then X else Y
    let bit := s.v.getD reg 0 &&& 1
    let v1 := s.v.set X (s.v.getD reg 0 >>> 1)
    .ok { s with v := v1.set 0xF bit }
  | .SubVxFromVy _ _ =>
    let overflowed := s.v.getD Y 0 < s.v.getD X 0
    let v1 := s.v.set X ((s.v.getD Y 0 + 256 - s.v.getD X 0) % 256)
    .ok { s with v := v1.set 0xF (if overflowed then 0 else 1) }
  | .LeftShiftVx _ =>
    let reg := if cfg.quirks.skip_shift_set then X else Y
    let bit := (s.v.getD reg 0 >>> 7) &&& 1
    let v1 := s.v.set X ((s.v.getD reg 0 <<< 1) % 256)
    .ok { s with v := v1.set 0xF bit }
  | .IfVxNotEqVy _ _ =>
    .ok (if s.v.getD X 0 ≠ s.v.getD Y 0 then { s with pc := s.pc + 2 } else s)
  | .SetI _ => .ok { s with i := NNN }
  | .JumpWithOffset _ =>
    let offset := if cfg.quirks.jump_with_vx
      then s.v.getD ((NNN >>> 8) &&& 0xF) 0
      else s.v.getD 0 0
    .ok { s with pc := NNN + offset }
  | .SetVxRand _ _ => .ok { s with v := s.v.set X ((rnd % 256) &&& NN) }
  | .Draw _ _ _ => drawArm cfg s X Y N
  | .IfKeyPressed _ =>
    let key := s.v.getD X 0 &&& 0xF
    if 16 ≤ key then .error (.InvalidKey key)
    else .ok (if keys.contains key then { s with pc := s.pc + 2 } else s)
  | .IfKeyNotPressed _ =>
    let key := s.v.getD X 0 &&& 0xF
    if 16 ≤ key then .error (.InvalidKey key)
    else .ok (if ¬ keys.contains key then { s with pc := s.pc + 2 } else s)
  | .SetVxToDelay _ => .ok { s with v := s.v.set X s.delay }
  | .SetVxToKey _ =>
    if cfg.hasInput then
      match keys with
      | key :: _ => .ok { s with v := s.v.set X key }
      | [] => .ok { s with pc := s.pc - 2 }
    else .error .NoInputDevice
  | .SetDelayToVx _ => .ok { s with delay := s.v.getD X 0 }
  | .SetSoundToVx _ => .ok { s with sound := s.v.getD X 0 }
  | .AddVxToI _ => .ok { s with i := (s.i + s.v.getD X 0) % 2 ^ 64 }
  | .SetIToCharInVx _ =>
    .ok { s with i := cfg.memory.font_start + (s.v.getD X 0 &&& 0xF) * 5 }
  | .StoreVxBCDAtI _ =>
    let value := s.v.getD X 0
    match s.memory.write_byte (s.i + 2) (value % 10) with
    | .error e => .error (.BcdWriteFailed e)
    | .ok m1 =>
      match m1.write_byte (s.i + 1) (value / 10 % 10) with
      | .error e => .error (.BcdWriteFailed e)
      | .ok m2 =>
        match m2.write_byte (s.i + 0) (value / 10 / 10 % 10) with
        | .error e => .error (.BcdWriteFailed e)
        | .ok m3 => .ok { s with memory := m3 }
  | .VDump _ => vdumpArm cfg s X
  | .VLoad _ => vloadArm cfg s X

/-- One iteration of the `while running` loop of `ChipEight::play`
(src/system.rs lines 126-442), from the fetch on: read two bytes at `pc`
(fatal on out-of-range), assemble the big-endian opcode, decode it (fatal
on an invalid opcode), increment `pc` by 2, then execute. The event drain,
the key snapshot (passed in as `keys`) and the end-of-cycle sleep touch no
machine state. -/
def cycle (cfg : Config) (keys : List Nat) (rnd : Nat) (s : ChipEight) :
    Except ExecError ChipEight :=
  match s.memory.read_buf s.pc 2 with
  | .error e => .error (.FetchFailed e)
  | .ok parts =>
    let opcode := (parts.getD 0 0 <<< 8) ||| parts.getD 1 0
    match Instruction.tryFrom opcode with
    | .error e => .error (.ParseFailed e)
    | .ok instr => executeInstr cfg keys rnd opcode instr { s with pc := s.pc + 2 }

/-! ## Quantities named by the specification

The spec's draw invariant speaks of the number of sprite bits actually
drawn, the number of collisions, and cell counts; the PC invariant
classifies the post-cycle program counter. The following definitions
state those quantities; the counting functions traverse the sprite in
exactly the order the pixel loop of src/system.rs does. -/

/-- Number of sprite bits drawn and number of collisions produced by one
row of the pixel loop: a bit is drawn when it is 1 and its target cell is
in range, and it collides when that cell is currently set. The frame
buffer is threaded through the toggles exactly as the loop mutates it. -/
def rowCount (cfg : DisplayConfig) (wrap : Bool) (x cy byte : Nat) :
    List Nat → List Bool → Nat × Nat
  | [], _ => (0, 0)
  | position :: rest, fb =>
    let cx := x + position
    if ¬ wrap ∧ cfg.width ≤ cx then (0, 0)
    else
      let current_x := if wrap then cx % cfg.width else cx
      let bit := (reverse_bits8 byte >>> position) &&& 1
      let idx := cy * cfg.width + current_x
      if bit ≠ 0 then
        if idx < fb.length then
          let r := rowCount cfg wrap x cy byte rest (fb.set idx (!(fb.getD idx false)))
          (r.1 + 1, r.2 + if fb.getD idx false then 1 else 0)
        else rowCount cfg wrap x cy byte rest fb
      else rowCount cfg wrap x cy byte rest fb

/-- Drawn-bit and collision counts for a whole sprite, row by row,
advancing the frame buffer with the drawing function between rows. -/
def layersCount (cfg : DisplayConfig) (wrap : Bool) (x y : Nat) :
    List (Nat × Nat) → List Bool → Nat × Nat
  | [], _ => (0, 0)
  | (layer, byte) :: rest, fb =>
    let cy := y + layer
    if ¬ wrap ∧ cfg.height ≤ cy then (0, 0)
    else
      let current_y := if wrap then cy % cfg.height else cy
      let r1 := rowCount cfg wrap x current_y byte (List.range 8) fb
      let fb' := (drawRowAux cfg wrap x current_y byte (List.range 8) ⟨fb, 0⟩).fb
      let r2 := layersCount cfg wrap x y rest fb'
      (r1.1 + r2.1, r1.2 + r2.2)

/-- Number of 1-bits in a byte. -/
def byteOnes (b : Nat) : Nat :=
  ((List.range 8).map (fun k => (b >>> k) &&& 1)).sum

/-- Number of 1-bits in a sprite (the quantity named by the spec's draw
invariant). -/
def onesInSprite (sprite : List Nat) : Nat :=
  (sprite.map byteOnes).sum

/-- Number of positions at which two frame buffers differ. -/
def diffCount (l1 l2 : List Bool) : Nat :=
  (List.zipWith bne l1 l2).count true

/-- The spec's classification of the post-cycle program counter (§8):
`PC_post = PC_pre + 2` unless the instruction is a jump, call, return,
skip, or the FX0A retry, in which case PC takes its documented value;
a call additionally pushes the post-fetch PC. `s` is the pre-fetch
state, `s'` the post-cycle state. -/
def PcClaim (cfg : Config) (keys : List Nat) (s s' : ChipEight) (opcode : Nat) :
    Instruction → Prop
  | .Jump _ => s'.pc = opcode &&& 0xFFF
  | .Call _ => s'.pc = opcode &&& 0xFFF ∧ s'.stack = (s.pc + 2) :: s.stack
  | .Return => ∃ a rest, s.stack = a :: rest ∧ s'.pc = a
  | .JumpWithOffset _ =>
    s'.pc = (opcode &&& 0xFFF) +
      (if cfg.quirks.jump_with_vx
       then s.v.getD (((opcode &&& 0xFFF) >>> 8) &&& 0xF) 0
       else s.v.getD 0 0)
  | .IfVxEq _ _ =>
    s'.pc = if s.v.getD ((opcode >>> 8) &&& 0xF) 0 = opcode &&& 0xFF
            then s.pc + 4 else s.pc + 2
  | .IfVxNotEq _ _ =>
    s'.pc = if s.v.getD ((opcode >>> 8) &&& 0xF) 0 ≠ opcode &&& 0xFF
            then s.pc + 4 else s.pc + 2
  | .IfVxEqVy _ _ =>
    s'.pc = if s.v.getD ((opcode >>> 8) &&& 0xF) 0 = s.v.getD ((opcode >>> 4) &&& 0xF) 0
            then s.pc + 4 else s.pc + 2
  | .IfVxNotEqVy _ _ =>
    s'.pc = if s.v.getD ((opcode >>> 8) &&& 0xF) 0 ≠ s.v.getD ((opcode >>> 4) &&& 0xF) 0
            then s.pc + 4 else s.pc + 2
  | .IfKeyPressed _ =>
    s'.pc = if keys.contains (s.v.getD ((opcode >>> 8) &&& 0xF) 0 &&& 0xF)
            then s.pc + 4 else s.pc + 2
  | .IfKeyNotPressed _ =>
    s'.pc = if ¬ keys.contains (s.v.getD ((opcode >>> 8) &&& 0xF) 0 &&& 0xF)
            then s.pc + 4 else s.pc + 2
  | .SetVxToKey _ => s'.pc = if keys = [] then s.pc else s.pc + 2
  | _ => s'.pc = s.pc + 2

/-! ## Concrete machines used by the evaluations below -/

/-- All six quirks off (the default configuration). -/
def quirksOff : QuirksConfig := ⟨false, false, false, false, false, false⟩

/-- Tiny run for opcode 7XNN: `program_start = 0`, ROM `75 12`
(ADD V5, 0x12), V1 = 7 and V5 = 1. -/
def c1cfg : Config := ⟨quirksOff, ⟨2, 2⟩, ⟨0, 0⟩, false⟩

def c1s0 : ChipEight :=
  ⟨[], 0, [0, 7, 0, 0, 0, 1, 0, 0, 0, 0, 0, 0, 0, 0, 0, 0], 0, 0, 0,
   ⟨[0x75, 0x12]⟩, [false, false, false, false]⟩

def c1end : ChipEight :=
  { c1s0 with pc := 2, v := [0, 7, 0, 0, 0, 0x19, 0, 0, 0, 0, 0, 0, 0, 0, 0, 0] }

/-- Draw example: 8×4 display, sprite `FF` at `(7, 0)` with the cell at
index 7 already set: one bit is drawn (the rest clip), and it collides. -/
def c2cfg : Config := ⟨quirksOff, ⟨8, 4⟩, ⟨0, 0⟩, false⟩

def c2s0 : ChipEight :=
  ⟨[], 0, [7, 0, 0, 0, 0, 0, 0, 0, 0, 0, 0, 0, 0, 0, 0, 0], 0, 0, 0,
   ⟨[0xFF]⟩, (List.replicate 32 false).set 7 true⟩

def c2end : ChipEight :=
  { c2s0 with frame_buffer := List.replicate 32 false,
              v := [7, 0, 0, 0, 0, 0, 0, 0, 0, 0, 0, 0, 0, 0, 0, 1] }

/-- FX55/FX65 round trip: ROM `F0 55 F0 65` at 0, `I = 4`, `V0 = 5`. -/
def c3cfg : Config := ⟨quirksOff, ⟨2, 2⟩, ⟨0, 0⟩, false⟩

def c3s0 : ChipEight :=
  ⟨[], 0, [5, 0, 0, 0, 0, 0, 0, 0, 0, 0, 0, 0, 0, 0, 0, 0], 4, 0, 0,
   ⟨[0xF0, 0x55, 0xF0, 0x65, 0, 0, 0, 0]⟩, [false, false, false, false]⟩

def c3end : ChipEight :=
  ⟨[], 4, List.replicate 16 0, 6, 0, 0,
   ⟨[0xF0, 0x55, 0xF0, 0x65, 5, 0, 0, 0]⟩, [false, false, false, false]⟩

/-- Arm-level FX55/FX65 states for the index-advance theorem: memory all
9s, `I = 0`, `V0 = 5`, `X = 0`. -/
def c3ws0 : ChipEight :=
  ⟨[], 0, [5, 0, 0, 0, 0, 0, 0, 0, 0, 0, 0, 0, 0, 0, 0, 0], 0, 0, 0,
   ⟨[9, 9, 9, 9, 9, 9]⟩, []⟩

def c3ws1 : ChipEight :=
  ⟨[], 0, [5, 0, 0, 0, 0, 0, 0, 0, 0, 0, 0, 0, 0, 0, 0, 0], 1, 0, 0,
   ⟨[5, 9, 9, 9, 9, 9]⟩, []⟩

def c3ws2 : ChipEight :=
  ⟨[], 0, [9, 0, 0, 0, 0, 0, 0, 0, 0, 0, 0, 0, 0, 0, 0, 0], 2, 0, 0,
   ⟨[5, 9, 9, 9, 9, 9]⟩, []⟩

/-- Shift-quirk scenario: ROM `82 30 82 36`, V2 = 0x0F, V3 = 0xF0. -/
def c5cfgF : Config := ⟨quirksOff, ⟨2, 2⟩, ⟨0, 0⟩, false⟩

def c5cfgT : Config :=
  ⟨{ quirksOff with skip_shift_set := true }, ⟨2, 2⟩, ⟨0, 0⟩, false⟩

def c5s0 : ChipEight :=
  ⟨[], 0, [0, 0, 0x0F, 0xF0, 0, 0, 0, 0, 0, 0, 0, 0, 0, 0, 0, 0], 0, 0, 0,
   ⟨[0x82, 0x30, 0x82, 0x36]⟩, [false, false, false, false]⟩

def c5end : ChipEight :=
  { c5s0 with pc := 4, v := [0, 0, 0x78, 0xF0, 0, 0, 0, 0, 0, 0, 0, 0, 0, 0, 0, 0] }

/-- FX1E at the top of a 16-byte memory: ROM `F0 1E` at 0, `I = 15`,
`V0 = 255`; the addressable range is 16 = 2^4. -/
def c7cfg : Config := ⟨quirksOff, ⟨2, 2⟩, ⟨0, 0x50⟩, false⟩

def c7s0 : ChipEight :=
  ⟨[], 0, [255, 0, 0, 0, 0, 0, 0, 0, 0, 0, 0, 0, 0, 0, 0, 0], 15, 0, 0,
   ⟨[0xF0, 0x1E, 0, 0, 0, 0, 0, 0, 0, 0, 0, 0, 0, 0, 0, 0]⟩,
   [false, false, false, false]⟩

/-! ## Helper lemmas about lists -/

theorem getD_set_self {α : Type} :
    ∀ (l : List α) (i : Nat) (a d : α), i < l.length → (l.set i a).getD i d = a
  | [], i, _, _, h => by simp at h
  | _ :: _, 0, _, _, _ => rfl
  | _ :: t, i + 1, a, d, h => by
    simpa [List.set, List.getD] using getD_set_self t i a d (by simpa using h)

theorem getD_set_ne {α : Type} :
    ∀ (l : List α) (i j : Nat) (a d : α), i ≠ j → (l.set i a).getD j d = l.getD j d
  | [], _, _, _, _, _ => rfl
  | _ :: _, 0, 0, _, _, h => absurd rfl h
  | _ :: _, 0, _ + 1, _, _, _ => rfl
  | _ :: _, _ + 1, 0, _, _, _ => rfl
  | _ :: t, i + 1, j + 1, a, d, h => by
    simpa [List.set, List.getD] using getD_set_ne t i j a d (fun hc => h (by omega))

theorem count_true_set :
    ∀ (l : List Bool) (i : Nat) (b : Bool), i < l.length →
      (l.set i b).count true + (if l.getD i false then 1 else 0)
        = l.count true + (if b then 1 else 0)
  | [], i, _, h => by simp at h
  | a :: t, 0, b, _ => by
    simp only [List.set, List.getD_cons_zero, List.count_cons]
    cases a <;> cases b <;> simp
  | a :: t, i + 1, b, h => by
    have ih := count_true_set t i b (by simpa using h)
    simp only [List.set, List.getD_cons_succ, List.count_cons]
    omega

/-! ## Draw-loop lemmas -/

theorem togglePixel_eq (fb : List Bool) (vf idx : Nat) :
    togglePixel ⟨fb, vf⟩ idx =
      if idx < fb.length
      then ⟨fb.set idx (!(fb.getD idx false)), if fb.getD idx false then 1 else vf⟩
      else ⟨fb, vf⟩ := by
  simp only [togglePixel]

theorem drawRowAux_spec (cfg : DisplayConfig) (wrap : Bool) (x cy byte : Nat) :
    ∀ (ps : List Nat) (fb : List Bool) (vf : Nat),
      (drawRowAux cfg wrap x cy byte ps ⟨fb, vf⟩).fb.length = fb.length ∧
      (drawRowAux cfg wrap x cy byte ps ⟨fb, vf⟩).fb.count true
          + 2 * (rowCount cfg wrap x cy byte ps fb).2
        = fb.count true + (rowCount cfg wrap x cy byte ps fb).1 ∧
      (drawRowAux cfg wrap x cy byte ps ⟨fb, vf⟩).vf
        = (if 0 < (rowCount cfg wrap x cy byte ps fb).2 then 1 else vf) ∧
      ∀ vf₂, (drawRowAux cfg wrap x cy byte ps ⟨fb, vf⟩).fb
        = (drawRowAux cfg wrap x cy byte ps ⟨fb, vf₂⟩).fb
  | [], fb, vf => by simp [drawRowAux, rowCount]
  | p :: rest, fb, vf => by
    simp only [drawRowAux, rowCount, togglePixel_eq]
    split
    · exact ⟨rfl, by simp, by simp, fun _ => rfl⟩
    · generalize (if wrap = true then (x + p) % cfg.width else x + p) = cxv
      split
      · split
        · next hin =>
          generalize hpix : fb.getD (cy * cfg.width + cxv) false = pv
          obtain ⟨ih1, ih2, ih3, ih4⟩ := drawRowAux_spec cfg wrap x cy byte rest
            (fb.set (cy * cfg.width + cxv) (!pv)) (if pv then 1 else vf)
          have hcnt := count_true_set fb (cy * cfg.width + cxv) (!pv) hin
          rw [hpix] at hcnt
          refine ⟨ih1.trans (List.length_set _ _ _), ?_, ?_, fun vf₂ => ih4 _⟩
          · cases pv <;> simp at ih2 hcnt ⊢ <;> omega
          · cases pv <;> simp at ih3 ⊢ <;> omega
        · next hin =>
          obtain ⟨ih1, ih2, ih3, ih4⟩ := drawRowAux_spec cfg wrap x cy byte rest fb vf
          exact ⟨ih1, ih2, ih3, fun vf₂ =>
            (drawRowAux_spec cfg wrap x cy byte rest fb vf).2.2.2 vf₂⟩
      · next hb =>
        obtain ⟨ih1, ih2, ih3, ih4⟩ := drawRowAux_spec cfg wrap x cy byte rest fb vf
        exact ⟨ih1, ih2, ih3, fun vf₂ =>
          (drawRowAux_spec cfg wrap x cy byte rest fb vf).2.2.2 vf₂⟩

theorem drawLayersAux_spec (cfg : DisplayConfig) (wrap : Bool) (x y : Nat) :
    ∀ (pairs : List (Nat × Nat)) (fb : List Bool) (vf : Nat),
      (drawLayersAux cfg wrap x y pairs ⟨fb, vf⟩).fb.length = fb.length ∧
      (drawLayersAux cfg wrap x y pairs ⟨fb, vf⟩).fb.count true
          + 2 * (layersCount cfg wrap x y pairs fb).2
        = fb.count true + (layersCount cfg wrap x y pairs fb).1 ∧
      (drawLayersAux cfg wrap x y pairs ⟨fb, vf⟩).vf
        = (if 0 < (layersCount cfg wrap x y pairs fb).2 then 1 else vf)
  | [], fb, vf => by simp [drawLayersAux, layersCount]
  | (layer, byte) :: rest, fb, vf => by
    simp only [drawLayersAux, layersCount]
    split
    · exact ⟨rfl, by simp, by simp⟩
    · generalize (if wrap = true then (y + layer) % cfg.height else y + layer) = cyv
      obtain ⟨row1, row2, row3, row4⟩ :=
        drawRowAux_spec cfg wrap x cyv byte (List.range 8) fb vf
      have hA0 : (drawRowAux cfg wrap x cyv byte (List.range 8) ⟨fb, 0⟩).fb
          = (drawRowAux cfg wrap x cyv byte (List.range 8) ⟨fb, vf⟩).fb := (row4 0).symm
      rw [hA0]
      rcases hA : drawRowAux cfg wrap x cyv byte (List.range 8) ⟨fb, vf⟩ with ⟨FB1, VF1⟩
      rw [hA] at row1 row2 row3
      dsimp only at row1 row2 row3 ⊢
      obtain ⟨ih1, ih2, ih3⟩ := drawLayersAux_spec cfg wrap x y rest FB1 VF1
      refine ⟨ih1.trans row1, ?_, ?_⟩
      · omega
      · rw [ih3, row3]
        split_ifs <;> omega

theorem loadRegs_append (m : Memory) (i : Nat) :
    ∀ (L1 : List Nat) (L2 : List Nat) (v : List Nat),
      loadRegs m v i (L1 ++ L2) =
        match loadRegs m v i L1 with
        | .error e => .error e
        | .ok v' => loadRegs m v' i L2
  | [], _, v => rfl
  | idx :: rest, L2, v => by
    simp only [List.cons_append, loadRegs]
    cases m.read_byte (i + idx) with
    | error e => rfl
    | ok b => exact loadRegs_append m i rest L2 (v.set idx b)

theorem loadRegs_length (m : Memory) (i : Nat) :
    ∀ (L : List Nat) (v v' : List Nat), loadRegs m v i L = .ok v' → v'.length = v.length
  | [], v, v', h => by cases h; rfl
  | idx :: rest, v, v', h => by
    simp only [loadRegs] at h
    cases hr : m.read_byte (i + idx) with
    | error e => rw [hr] at h; cases h
    | ok b =>
      rw [hr] at h
      have := loadRegs_length m i rest (v.set idx b) v' h
      simpa using this

theorem loadRegs_range_spec (m : Memory) (i : Nat) :
    ∀ (n : Nat) (v v' : List Nat), loadRegs m v i (List.range n) = .ok v' →
      (∀ k, n ≤ k → v'.getD k 0 = v.getD k 0) ∧
      (∀ k, k < n → k < v.length → v'.getD k 0 = m.buffer.getD (i + k) 0) := by
  intro n
  induction n with
  | zero =>
    intro v v' h
    cases h
    exact ⟨fun _ _ => rfl, fun k hk _ => absurd hk (by omega)⟩
  | succ n ih =>
    intro v v' h
    rw [List.range_succ, loadRegs_append] at h
    cases h1 : loadRegs m v i (List.range n) with
    | error e => rw [h1] at h; cases h
    | ok v1 =>
      rw [h1] at h
      simp only [loadRegs] at h
      cases hr : m.read_byte (i + n) with
      | error e => rw [hr] at h; cases h
      | ok b =>
        rw [hr] at h
        cases h
        obtain ⟨ih1, ih2⟩ := ih v v1 h1
        have hlen := loadRegs_length m i (List.range n) v v1 h1
        have hb : b = m.buffer.getD (i + n) 0 := by
          unfold Memory.read_byte Memory.is_in_bounds at hr
          split at hr
          · cases hr
          · cases hr; rfl
        constructor
        · intro k hk
          rw [getD_set_ne _ n k _ _ (by omega)]
          exact ih1 k (by omega)
        · intro k hk hkv
          rcases Nat.lt_succ_iff_lt_or_eq.mp hk with h' | h'
          · rw [getD_set_ne _ n k _ _ (by omega)]
            exact ih2 k h' hkv
          · subst h'
            rw [getD_set_self _ k _ _ (by rw [hlen]; exact hkv), hb]

/-! ## Timer lemmas -/

theorem timerRun_le (ch : Bool) : ∀ (n : Nat) (value : Nat), timerRun ch value n ≤ value
  | 0, _ => le_refl _
  | n + 1, v => by
    have h1 := timerRun_le ch n (timerTick ch v).1
    have h2 : (timerTick ch v).1 ≤ v := by
      unfold timerTick; split <;> dsimp only <;> omega
    exact le_trans h1 h2

theorem timerRun_add (ch : Bool) : ∀ (a b value : Nat),
    timerRun ch value (a + b) = timerRun ch (timerRun ch value a) b
  | 0, b, v => by rw [Nat.zero_add]; rfl
  | a + 1, b, v => by
    rw [show a + 1 + b = (a + b) + 1 from by omega]
    simp only [timerRun]
    exact timerRun_add ch a b (timerTick ch v).1

/-! ## Claim theorems -/

/-- C6: a range operation (`read_buf`/`write_buf`) fails, with an
out-of-range error carrying the offending address and length, exactly when
the length is at least 1 and the last touched address `addr + len − 1`
is `≥` the memory length; zero-length range operations succeed and leave
memory untouched; a single-byte operation fails exactly when `addr` is
`≥` the memory length. -/
theorem mem_bounds_spec (m : Memory) (addr len : Nat) (data : List Nat) (b : Nat) :
    (Memory.read_buf m addr len = .error (.RangeOutOfBounds addr len)
        ↔ 1 ≤ len ∧ m.buffer.length ≤ addr + (len - 1)) ∧
    ((Memory.read_buf m addr len).isOk = true
        ↔ (len < 1 ∨ addr + (len - 1) < m.buffer.length)) ∧
    (Memory.write_buf m addr data = .error (.RangeOutOfBounds addr data.length)
        ↔ 1 ≤ data.length ∧ m.buffer.length ≤ addr + (data.length - 1)) ∧
    ((Memory.write_buf m addr data).isOk = true
        ↔ (data.length < 1 ∨ addr + (data.length - 1) < m.buffer.length)) ∧
    (len = 0 → Memory.read_buf m addr len = .ok []) ∧
    (data = [] → Memory.write_buf m addr data = .ok m) ∧
    (Memory.read_byte m addr = .error (.AddrOutOfBounds addr) ↔ m.buffer.length ≤ addr) ∧
    ((Memory.read_byte m addr).isOk = true ↔ addr < m.buffer.length) ∧
    (Memory.write_byte m addr b = .error (.AddrOutOfBounds addr) ↔ m.buffer.length ≤ addr) ∧
    ((Memory.write_byte m addr b).isOk = true ↔ addr < m.buffer.length) := by
  unfold Memory.read_buf Memory.write_buf Memory.read_byte Memory.write_byte
    Memory.is_in_bounds
  refine ⟨?_, ?_, ?_, ?_, ?_, ?_, ?_, ?_, ?_, ?_⟩ <;>
    · split_ifs <;> simp_all [Except.isOk, Except.toBool] <;>
        first
        | omega
        | exact List.length_pos.mpr (by assumption)

/-- C6 witness: a zero-length read at an out-of-range address succeeds
with the empty slice. -/
theorem mem_bounds_spec_witness : Memory.read_buf ⟨[0, 0]⟩ 7 0 = .ok [] :=
  (mem_bounds_spec ⟨[0, 0]⟩ 7 0 [] 0).2.2.2.2.1 rfl

/-- C10: whenever `write_buf` or `write_byte` returns an error, the memory
the caller holds afterwards is exactly the memory before the call (the
bounds check precedes any mutation), and the error is the out-of-bounds
error for the offending address (and length). -/
theorem write_error_atomic (m : Memory) (addr : Nat) (data : List Nat) (b : Nat) :
    ((Memory.write_buf m addr data).isOk = false →
      memAfterWriteBuf m addr data = m ∧
      Memory.write_buf m addr data = .error (.RangeOutOfBounds addr data.length)) ∧
    ((Memory.write_byte m addr b).isOk = false →
      memAfterWriteByte m addr b = m ∧
      Memory.write_byte m addr b = .error (.AddrOutOfBounds addr)) := by
  unfold memAfterWriteBuf memAfterWriteByte Memory.write_buf Memory.write_byte
    Memory.is_in_bounds
  constructor <;> · split_ifs <;> simp_all [Except.isOk, Except.toBool]

/-- C10 witness: a two-byte write past the end of a one-byte memory fails
and leaves the memory unchanged. -/
theorem write_error_atomic_witness :
    memAfterWriteBuf ⟨[4]⟩ 0 [1, 2] = ⟨[4]⟩ ∧
    Memory.write_buf ⟨[4]⟩ 0 [1, 2] = .error (.RangeOutOfBounds 0 2) :=
  (write_error_atomic ⟨[4]⟩ 0 [1, 2] 0).1 rfl

/-- C9: on every tick observing a non-zero value the sound timer stores
value−1 and emits exactly one play-tone event; a stop-tone event is
emitted exactly on the ticks that observe 0; the delay timer (no event
channel) emits nothing; and the value is monotonically non-increasing
over ticks between explicit `set` calls. -/
theorem timer_spec :
    (∀ value, 0 < value →
        timerTick true value = (value - 1, [PeripheralEvent.PlayTone])) ∧
    (∀ value, PeripheralEvent.StopTone ∈ (timerTick true value).2 ↔ value = 0) ∧
    (∀ value, (timerTick false value).2 = []) ∧
    (∀ value n m, m ≤ n →
        timerRun true value n ≤ timerRun true value m ∧
        timerRun false value n ≤ timerRun false value m) := by
  refine ⟨?_, ?_, ?_, ?_⟩
  · intro v hv
    simp [timerTick, hv]
  · intro v
    unfold timerTick
    split <;> simp <;> omega
  · intro v
    unfold timerTick
    split <;> rfl
  · intro v n m hmn
    have h : n = m + (n - m) := by omega
    constructor <;> (rw [h, timerRun_add]; exact timerRun_le _ _ _)

/-- C9 witness: one tick from 3 stores 2 and plays the tone; four ticks
never exceed two ticks' value. -/
theorem timer_spec_witness :
    timerTick true 3 = (2, [PeripheralEvent.PlayTone]) ∧
    timerRun true 5 4 ≤ timerRun true 5 2 :=
  ⟨timer_spec.1 3 (by decide), (timer_spec.2.2.2 5 4 2 (by decide)).1⟩

/-- C7 amended: FX1E sets `I` to `(I + V[x]) mod 2^64` — the machine word
width of the Rust `usize` in `i.wrapping_add(...)` — leaving every other
component of the state (in particular VF) unchanged. It does not wrap at
the addressable range of memory. -/
theorem addVxToI_wraps_machine_word (cfg : Config) (keys : List Nat) (rnd opcode r : Nat)
    (s : ChipEight) :
    executeInstr cfg keys rnd opcode (.AddVxToI r) s =
      .ok { s with i := (s.i + s.v.getD ((opcode >>> 8) &&& 0xF) 0) % 2 ^ 64 } := rfl

/-- C7 counterexample: on a 16-byte memory (addressing width 4) with
`I = 15` and `V0 = 255`, FX1E produces `I = 270`, not
`(15 + 255) mod 16 = 14` as the claim's wrap at the addressable range
would require. -/
theorem addVxToI_claim_false :
    cycle c7cfg [] 0 c7s0 = .ok { c7s0 with pc := 2, i := 270 } ∧
    (c7s0.i + c7s0.v.getD 0 0) % c7s0.memory.buffer.length = 14 ∧
    (270 : Nat) ≠ 14 :=
  ⟨rfl, rfl, by decide⟩

/-- C1: executing opcode 7512 (ADD V5, 0x12) from V5 = 1, V1 = 7 yields
V5 = 0x19 = V1 + 0x12: the 7XNN arm reads `self.v[$Y]` (src/system.rs
line 199), not the old V5, which the claim (and the spec's dispatch
table, and the earlier revision in src/lib.rs line 315) requires:
that would give V5 = (1 + 0x12) mod 256 = 0x13. -/
theorem addToVx_reads_vy :
    cycle c1cfg [] 0 c1s0 = .ok c1end ∧
    c1end.v.getD 5 0 = 0x19 ∧
    (c1s0.v.getD 5 0 + 0x12) % 256 = 0x13 ∧
    (0x19 : Nat) ≠ 0x13 :=
  ⟨rfl, rfl, rfl, by decide⟩

/-- C5 amended: from V2 = 0x0F, V3 = 0xF0, executing 8230 then 8236
yields V2 = 0x78 and VF = 0 under **both** settings of the
`skip_shift_set` quirk: 8230 overwrites V2 with V3 = 0xF0 before the
shift, so shifting V2 in place and shifting V3 into V2 coincide here. -/
theorem shift_quirk_scenario :
    (cycle c5cfgF [] 0 c5s0).bind (cycle c5cfgF [] 0) = .ok c5end ∧
    (cycle c5cfgT [] 0 c5s0).bind (cycle c5cfgT [] 0) = .ok c5end ∧
    c5end.v.getD 2 0 = 0x78 ∧ c5end.v.getD 0xF 0 = 0 :=
  ⟨rfl, rfl, rfl, rfl⟩

/-- C5 counterexample: with `skip_shift_set = true` the run produces
V2 = 0x78 and VF = 0, not V2 = 0x07 and VF = 1 as the claim states. -/
theorem shift_quirk_claim_false :
    (cycle c5cfgT [] 0 c5s0).bind (cycle c5cfgT [] 0) = .ok c5end ∧
    c5end.v.getD 2 0 = 0x78 ∧ (0x78 : Nat) ≠ 0x07 ∧
    c5end.v.getD 0xF 0 = 0 ∧ (0 : Nat) ≠ 1 :=
  ⟨rfl, rfl, by decide, rfl, by decide⟩

/-- C3 amended: with `preserve_index` off, FX55 (store) immediately
followed by FX65 (load) advances `I` by `2·(X+1)`, but reloads
`V0..VX` from `memory[I+X+1 ..]` — the region *after* the one just
written, since FX55 already advanced `I` — leaving only the registers
above `X` unchanged. The register file is therefore not restored in
general. -/
theorem vdump_vload_index (cfg : Config) (s : ChipEight) (X : Nat) (s1 s2 : ChipEight)
    (hq : cfg.quirks.preserve_index = false)
    (hv : s.v.length = 16) (hx : X < 16)
    (h1 : vdumpArm cfg s X = .ok s1) (h2 : vloadArm cfg s1 X = .ok s2) :
    s2.i = s.i + 2 * (X + 1) ∧
    (∀ k, X < k → s2.v.getD k 0 = s.v.getD k 0) ∧
    (∀ k, k ≤ X → s2.v.getD k 0 = s1.memory.buffer.getD (s.i + X + 1 + k) 0) := by
  cases hst : storeRegs s.memory s.v s.i (List.range (X + 1)) with
  | error e =>
    have he : vdumpArm cfg s X = .error (.VDumpFailed e) := by
      unfold vdumpArm; rw [hst]
    rw [he] at h1; cases h1
  | ok m' =>
    have e1 : vdumpArm cfg s X = .ok { s with memory := m', i := s.i + X + 1 } := by
      unfold vdumpArm; rw [hst]; simp [hq]
    have hs1 : s1 = { s with memory := m', i := s.i + X + 1 } :=
      Except.ok.inj (h1.symm.trans e1)
    subst hs1
    unfold vloadArm at h2
    dsimp only at h2
    cases hld : loadRegs m' s.v (s.i + X + 1) (List.range (X + 1)) with
    | error e => rw [hld] at h2; cases h2
    | ok v' =>
      rw [hld, hq, if_pos (show (¬false = true) from by decide)] at h2
      have hs2 : s2 = { s with v := v', memory := m', i := s.i + X + 1 + X + 1 } :=
        (Except.ok.inj h2).symm
      subst hs2
      obtain ⟨sp1, sp2⟩ := loadRegs_range_spec m' (s.i + X + 1) (X + 1) s.v v' hld
      exact ⟨by dsimp only; omega,
        fun k hk => sp1 k (by omega),
        fun k hk => sp2 k (by omega) (by omega)⟩

/-- C3 witness: with `I = 0`, `V0 = 5`, `X = 0` over memory `[9,9,9,9,9,9]`,
the store/load pair advances `I` to 2, leaves V5 unchanged, and reloads V0
from `memory[1]` (which is 9, not the stored 5). -/
theorem vdump_vload_index_witness :
    c3ws2.i = c3ws0.i + 2 * (0 + 1) ∧
    c3ws2.v.getD 5 0 = c3ws0.v.getD 5 0 ∧
    c3ws2.v.getD 0 0 = c3ws1.memory.buffer.getD (c3ws0.i + 0 + 1 + 0) 0 := by
  have h := vdump_vload_index c3cfg c3ws0 0 c3ws1 c3ws2 rfl rfl (by decide) rfl rfl
  exact ⟨h.1, h.2.1 5 (by decide), h.2.2 0 (by decide)⟩

/-- C3 counterexample: running the ROM `F0 55 F0 65` with `I = 4` and
`V0 = 5` over zeroed memory ends with `V0 = 0 ≠ 5`: the register file is
not left unchanged by FX55 followed by FX65 with quirks off. -/
theorem vdump_vload_claim_false :
    (cycle c3cfg [] 0 c3s0).bind (cycle c3cfg [] 0) = .ok c3end ∧
    c3end.i = c3s0.i + 2 * (0 + 1) ∧
    c3end.v.getD 0 0 = 0 ∧ c3s0.v.getD 0 0 = 5 ∧ (0 : Nat) ≠ 5 :=
  ⟨rfl, rfl, rfl, rfl, by decide⟩

/-- C2 amended: for every DXYN draw, VF is set to 0 before any pixel is
processed and afterwards equals 1 exactly when at least one drawn sprite
bit landed on a cell that was already set; and the change in the number
of **set** frame-buffer cells equals the number of sprite 1-bits
**actually drawn** (in-range, not clipped) minus twice the number of
collisions: `count(after) + 2·collisions = count(before) + drawn`. -/
theorem draw_spec (cfg : Config) (s : ChipEight) (X Y N : Nat) (s' : ChipEight)
    (sprite : List Nat)
    (hv : s.v.length = 16)
    (hs : s.memory.read_buf s.i N = .ok sprite)
    (h : drawArm cfg s X Y N = .ok s') :
    s'.v.getD 0xF 0 =
      (if 0 < (layersCount cfg.display cfg.quirks.wrap_sprites
          ((s.v.set 0xF 0).getD X 0 % cfg.display.width)
          ((s.v.set 0xF 0).getD Y 0 % cfg.display.height)
          sprite.enum s.frame_buffer).2 then 1 else 0) ∧
    s'.frame_buffer.count true
        + 2 * (layersCount cfg.display cfg.quirks.wrap_sprites
          ((s.v.set 0xF 0).getD X 0 % cfg.display.width)
          ((s.v.set 0xF 0).getD Y 0 % cfg.display.height)
          sprite.enum s.frame_buffer).2
      = s.frame_buffer.count true
        + (layersCount cfg.display cfg.quirks.wrap_sprites
          ((s.v.set 0xF 0).getD X 0 % cfg.display.width)
          ((s.v.set 0xF 0).getD Y 0 % cfg.display.height)
          sprite.enum s.frame_buffer).1 := by
  unfold drawArm at h
  dsimp only at h
  rw [hs] at h
  dsimp only at h
  have hz : (s.v.set 0xF 0).getD 0xF 0 = 0 := getD_set_self _ _ _ _ (by omega)
  rw [hz] at h
  have hs' : s' = _ := (Except.ok.inj h).symm
  subst hs'
  obtain ⟨l1, l2, l3⟩ := drawLayersAux_spec cfg.display cfg.quirks.wrap_sprites
    ((s.v.set 0xF 0).getD X 0 % cfg.display.width)
    ((s.v.set 0xF 0).getD Y 0 % cfg.display.height)
    sprite.enum s.frame_buffer 0
  constructor
  · dsimp only
    rw [getD_set_self _ _ _ _ (by rw [List.length_set]; omega)]
    exact l3
  · exact l2

/-- C2 witness: drawing the one-row sprite `FF` at `(7, 0)` on the 8×4
display with the target cell already set: one collision, so VF = 1, and
the set-cell count drops by one (1 drawn bit, 1 collision). -/
theorem draw_spec_witness :
    c2end.v.getD 0xF 0 =
      (if 0 < (layersCount c2cfg.display c2cfg.quirks.wrap_sprites
          ((c2s0.v.set 0xF 0).getD 0 0 % c2cfg.display.width)
          ((c2s0.v.set 0xF 0).getD 1 0 % c2cfg.display.height)
          ([0xFF] : List Nat).enum c2s0.frame_buffer).2 then 1 else 0) ∧
    c2end.frame_buffer.count true
        + 2 * (layersCount c2cfg.display c2cfg.quirks.wrap_sprites
          ((c2s0.v.set 0xF 0).getD 0 0 % c2cfg.display.width)
          ((c2s0.v.set 0xF 0).getD 1 0 % c2cfg.display.height)
          ([0xFF] : List Nat).enum c2s0.frame_buffer).2
      = c2s0.frame_buffer.count true
        + (layersCount c2cfg.display c2cfg.quirks.wrap_sprites
          ((c2s0.v.set 0xF 0).getD 0 0 % c2cfg.display.width)
          ((c2s0.v.set 0xF 0).getD 1 0 % c2cfg.display.height)
          ([0xFF] : List Nat).enum c2s0.frame_buffer).1 :=
  draw_spec c2cfg c2s0 0 1 1 c2end [0xFF] rfl rfl rfl

/-- C2 counterexample: the same draw changes exactly one cell, while the
sprite has eight 1-bits and there is one collision: the claim's
`cells changed = sprite 1-bits − 2·collisions` would require
`1 = 8 − 2 = 6`, which is false (clipped bits are not drawn, and a
changed cell is counted once whether it was set or cleared). -/
theorem draw_diff_claim_false :
    drawArm c2cfg c2s0 0 1 1 = .ok c2end ∧
    diffCount c2s0.frame_buffer c2end.frame_buffer = 1 ∧
    onesInSprite [0xFF] = 8 ∧
    layersCount c2cfg.display c2cfg.quirks.wrap_sprites 7 0
      ([0xFF] : List Nat).enum c2s0.frame_buffer = (1, 1) ∧
    (1 : Int) ≠ 8 - 2 * 1 :=
  ⟨rfl, rfl, rfl, rfl, by decide⟩

/-- C4 counterexample: 0x5121 does not match the documented pattern 5XY0
(its low nibble is 1), yet the decoder accepts it as `SE V1, V2`; the
low nibble of the 0x5 (and 0x9) family is never checked. -/
theorem tryFrom_claim_false :
    Instruction.tryFrom 0x5121 = .ok (.IfVxEqVy 1 2) ∧
    (Instruction.tryFrom 0x5121).isOk = true ∧
    Instruction.tryFrom 0x9AB7 = .ok (.IfVxNotEqVy 0xA 0xB) :=
  ⟨rfl, rfl, rfl⟩

set_option maxHeartbeats 1000000 in
/-- C4 amended: the decoder returns the `InvalidOpcode` error carrying
the word exactly for the undefined sub-patterns of the 0x0, 0x8, 0xE and
0xF families; every other word — including 5XYk and 9XYk for **any** low
nibble k, whose don't-care nibble is not checked — decodes to an
instruction. -/
theorem tryFrom_error_characterization (w : Nat) :
    Instruction.tryFrom w = .error ⟨w⟩ ↔
      (((w >>> 12) &&& 0xF = 0x0 ∧ w &&& 0xFF ≠ 0xE0 ∧ w &&& 0xFF ≠ 0xEE) ∨
       ((w >>> 12) &&& 0xF = 0x8 ∧ w &&& 0xF ≠ 0x0 ∧ w &&& 0xF ≠ 0x1 ∧
          w &&& 0xF ≠ 0x2 ∧ w &&& 0xF ≠ 0x3 ∧ w &&& 0xF ≠ 0x4 ∧ w &&& 0xF ≠ 0x5 ∧
          w &&& 0xF ≠ 0x6 ∧ w &&& 0xF ≠ 0x7 ∧ w &&& 0xF ≠ 0xE) ∨
       ((w >>> 12) &&& 0xF = 0xE ∧ w &&& 0xFF ≠ 0x9E ∧ w &&& 0xFF ≠ 0xA1) ∨
       ((w >>> 12) &&& 0xF = 0xF ∧ w &&& 0xFF ≠ 0x07 ∧ w &&& 0xFF ≠ 0x0A ∧
          w &&& 0xFF ≠ 0x15 ∧ w &&& 0xFF ≠ 0x18 ∧ w &&& 0xFF ≠ 0x1E ∧
          w &&& 0xFF ≠ 0x29 ∧ w &&& 0xFF ≠ 0x33 ∧ w &&& 0xFF ≠ 0x55 ∧
          w &&& 0xFF ≠ 0x65)) := by
  simp only [Instruction.tryFrom]
  generalize ht : (w >>> 12) &&& 0xF = t
  generalize (w >>> 8) &&& 0xF = xv
  generalize (w >>> 4) &&& 0xF = yv
  generalize w &&& 0xFFF = nnnv
  generalize w &&& 0xFF = nnv
  generalize w &&& 0xF = nv
  have hle : t ≤ 0xF := ht ▸ Nat.and_le_right
  clear ht
  interval_cases t <;> simp <;> (try split_ifs) <;> (try simp_all) <;> (try omega)

/-- C8: for every completed cycle the post-cycle program counter is the
pre-fetch PC plus 2, except that a jump, call, return, taken skip, or the
FX0A retry with no key pressed sets it to its documented value (the
target, the popped address, PC+4, or the pre-fetch PC), and a call pushes
the post-fetch PC onto the stack. -/
theorem cycle_pc (cfg : Config) (keys : List Nat) (rnd : Nat) (s s' : ChipEight)
    (parts : List Nat) (instr : Instruction)
    (hf : s.memory.read_buf s.pc 2 = .ok parts)
    (hd : Instruction.tryFrom ((parts.getD 0 0 <<< 8) ||| parts.getD 1 0) = .ok instr)
    (h : cycle cfg keys rnd s = .ok s') :
    PcClaim cfg keys s s' ((parts.getD 0 0 <<< 8) ||| parts.getD 1 0) instr := by
  unfold cycle at h
  rw [hf] at h
  dsimp only at h
  rw [hd] at h
  dsimp only at h
  cases instr with
  | Clear =>
    simp only [executeInstr] at h
    cases h
    simp [PcClaim]
  | Return =>
    simp only [executeInstr] at h
    rcases hstk : s.stack with _ | ⟨a, rest⟩
    · rw [hstk] at h; cases h
    · rw [hstk] at h
      dsimp only at h
      cases h
      exact ⟨a, rest, hstk, rfl⟩
  | Jump nnn =>
    simp only [executeInstr] at h
    cases h
    simp [PcClaim]
  | Call nnn =>
    simp only [executeInstr] at h
    cases h
    simp [PcClaim]
  | IfVxEq x nn =>
    simp only [executeInstr] at h
    cases h
    simp only [PcClaim]
    split_ifs <;> simp_all <;> omega
  | IfVxNotEq x nn =>
    simp only [executeInstr] at h
    cases h
    simp only [PcClaim]
    split_ifs <;> simp_all <;> omega
  | IfVxEqVy x y =>
    simp only [executeInstr] at h
    cases h
    simp only [PcClaim]
    split_ifs <;> simp_all <;> omega
  | SetVx x nn =>
    simp only [executeInstr] at h
    cases h
    simp [PcClaim]
  | AddToVx x nn =>
    simp only [executeInstr] at h
    cases h
    simp [PcClaim]
  | SetVxToVy x y =>
    simp only [executeInstr] at h
    cases h
    simp [PcClaim]
  | SetVxOrVy x y =>
    simp only [executeInstr] at h
    cases h
    simp [PcClaim]
  | SetVxAndVy x y =>
    simp only [executeInstr] at h
    cases h
    simp [PcClaim]
  | SetVxXorVy x y =>
    simp only [executeInstr] at h
    cases h
    simp [PcClaim]
  | AddVyToVx x y =>
    simp only [executeInstr] at h
    cases h
    simp [PcClaim]
  | SubVyFromVx x y =>
    simp only [executeInstr] at h
    cases h
    simp [PcClaim]
  | RightShiftVx x =>
    simp only [executeInstr] at h
    cases h
    simp [PcClaim]
  | SubVxFromVy x y =>
    simp only [executeInstr] at h
    cases h
    simp [PcClaim]
  | LeftShiftVx x =>
    simp only [executeInstr] at h
    cases h
    simp [PcClaim]
  | IfVxNotEqVy x y =>
    simp only [executeInstr] at h
    cases h
    simp only [PcClaim]
    split_ifs <;> simp_all <;> omega
  | SetI nnn =>
    simp only [executeInstr] at h
    cases h
    simp [PcClaim]
  | JumpWithOffset nnn =>
    simp only [executeInstr] at h
    cases h
    simp [PcClaim]
  | SetVxRand x nn =>
    simp only [executeInstr] at h
    cases h
    simp [PcClaim]
  | Draw x y n =>
    simp only [executeInstr] at h
    unfold drawArm at h
    dsimp only at h
    split at h
    · cases h
    · cases h
      simp [PcClaim]
  | IfKeyPressed x =>
    simp only [executeInstr] at h
    split at h
    · cases h
    · cases h
      simp only [PcClaim]
      split_ifs <;> simp_all <;> omega
  | IfKeyNotPressed x =>
    simp only [executeInstr] at h
    split at h
    · cases h
    · cases h
      simp only [PcClaim]
      split_ifs <;> simp_all <;> omega
  | SetVxToDelay x =>
    simp only [executeInstr] at h
    cases h
    simp [PcClaim]
  | SetVxToKey x =>
    simp only [executeInstr] at h
    split at h
    · cases keys with
      | nil =>
        dsimp only at h
        cases h
        simp only [PcClaim]
        simp
      | cons k ks =>
        dsimp only at h
        cases h
        simp only [PcClaim]
        simp
    · cases h
  | SetDelayToVx x =>
    simp only [executeInstr] at h
    cases h
    simp [PcClaim]
  | SetSoundToVx x =>
    simp only [executeInstr] at h
    cases h
    simp [PcClaim]
  | AddVxToI x =>
    simp only [executeInstr] at h
    cases h
    simp [PcClaim]
  | SetIToCharInVx x =>
    simp only [executeInstr] at h
    cases h
    simp [PcClaim]
  | StoreVxBCDAtI x =>
    simp only [executeInstr] at h
    split at h
    · cases h
    · split at h
      · cases h
      · split at h
        · cases h
        · cases h
          simp [PcClaim]
  | VDump x =>
    simp only [executeInstr] at h
    unfold vdumpArm at h
    split at h
    · cases h
    · cases h
      simp [PcClaim]
  | VLoad x =>
    simp only [executeInstr] at h
    unfold vloadArm at h
    split at h
    · cases h
    · cases h
      simp [PcClaim]

/-- C8 witness: one full cycle of opcode 7512 (an ordinary data
instruction) advances the PC from 0 to 2 = PC + 2. -/
theorem cycle_pc_witness :
    PcClaim c1cfg [] c1s0 c1end 0x7512 (.AddToVx 5 0x12) :=
  cycle_pc c1cfg [] 0 c1s0 c1end [0x75, 0x12] (.AddToVx 5 0x12) rfl rfl rfl
